import Mathlib

/-!
Shallow embedding of the particle-life simulation core
(`src/linkedList/construct.wgsl`, `src/linkedList/sim.wgsl`,
`src/linkedList/main.ts`, `src/options.ts`) and proofs of the
specification claims about it.

Shader floating-point arithmetic is embedded over `ℚ` (idealized exact
arithmetic); `sqrt`, which the kernel only applies to values whose exact
result is irrelevant to the claims below, is an abstract parameter.
-/

namespace ParticleLife

/-- The `Sim` uniform struct shared by both WGSL shaders
(`construct.wgsl` lines 4-15, `sim.wgsl` lines 5-16, `options.ts`). -/
structure SimQ where
  colours : ℕ
  r : ℚ
  force : ℚ
  friction : ℚ
  beta : ℚ
  delta : ℚ
  avoidance : ℚ
  worldSize : ℚ
  border : ℕ
  vortex : ℕ
deriving DecidableEq

/-- A particle record: `pos.xy` = position, `pos.zw` = velocity
(`Particle` struct, `construct.wgsl` lines 17-20 / `sim.wgsl` lines 18-20). -/
structure ParticleQ where
  pos : ℚ × ℚ
  vel : ℚ × ℚ
deriving DecidableEq

instance : Inhabited ParticleQ := ⟨⟨(0, 0), (0, 0)⟩⟩

/-- WGSL `clamp(e, lo, hi) = min(max(e, lo), hi)`. -/
def clampQ (v lo hi : ℚ) : ℚ := min (max v lo) hi

/-- Grid dimension per axis: `u32(ceil(worldSize * 2 / r)) + 1`
(`construct.wgsl` lines 36-38, replicated in `sim.wgsl` lines 41-43). -/
def gridDim (s : SimQ) : ℕ := (⌈s.worldSize * 2 / s.r⌉).toNat + 1

/-- `cellCoord` from `construct.wgsl` lines 41-46: clamp the coordinate to
`[-worldSize, worldSize]`, then `u32(floor((clamped + half) / r))`. -/
def cellCoordN (v : ℚ) (s : SimQ) : ℕ :=
  (⌊(clampQ v (-s.worldSize) s.worldSize + s.worldSize) / s.r⌋).toNat

/-- `cellCoord` from `sim.wgsl` lines 45-49 (same computation, `i32` result). -/
def cellCoordZ (v : ℚ) (s : SimQ) : ℤ :=
  ⌊(clampQ v (-s.worldSize) s.worldSize + s.worldSize) / s.r⌋

/-- Flat cell index `cy * dim + cx` (`construct.wgsl` lines 56-58). -/
def cellIndexN (cx cy dim : ℕ) : ℕ := cy * dim + cx

/-- Flat cell index, `i32` version (`sim.wgsl` lines 51-53). -/
def cellIndexZ (cx cy dim : ℤ) : ℤ := cy * dim + cx

/-- Spatial acceleration structure: `heads[cell]` is the index of the first
particle in that cell (`-1` = empty), `next[i]` the index of the next particle
in `i`'s cell chain (`construct.wgsl` bindings 2-3, `sim.wgsl` bindings 4-5).
Modelled as total functions over the flat indices. -/
structure Grid where
  heads : ℕ → ℤ
  next : ℕ → ℤ

/-- Grid state at the start of a tick: the heads table is reset to the `-1`
sentinel by the bulk copy from `headsInitBuffer` (`main.ts` lines 151-158);
the `linked` storage buffer is zero-initialized at creation and every entry
that a chain can reach is overwritten by the construct pass. -/
def initGrid : Grid := ⟨fun _ => -1, fun _ => 0⟩

/-- One particle's insertion (`construct.wgsl` lines 68-76):
`prev = atomicExchange(&heads[cell], i32(idx)); linked[idx].next = prev`.
`cellOf` gives the flat cell index computed on lines 69-72. -/
def insertP (cellOf : ℕ → ℕ) (st : Grid) (i : ℕ) : Grid :=
  ⟨Function.update st.heads (cellOf i) (Int.ofNat i),
   Function.update st.next i (st.heads (cellOf i))⟩

/-- The Grid Builder dispatch: one `insertP` per particle; `order` is the
sequence in which the hardware serializes the atomic head exchanges. -/
def buildGrid (cellOf : ℕ → ℕ) (order : List ℕ) : Grid :=
  order.foldl (insertP cellOf) initGrid

/-- The flat cell index of particle `i` as the construct shader computes it
(`construct.wgsl` lines 68-72). -/
def cellOfParticle (s : SimQ) (particles : List ParticleQ) (i : ℕ) : ℕ :=
  let p := particles.getD i default
  cellIndexN (cellCoordN p.pos.1 s) (cellCoordN p.pos.2 s) (gridDim s)

/-- The sequence of particle indices visited by the loop
`var j = heads[cell]; while j >= 0 { ...; j = linked[j]; }`
(`sim.wgsl` lines 100-135), truncated by fuel (the loop in the shader has no
intrinsic bound; grid well-formedness proved below shows fuel = particle
count always suffices). -/
def chainL (next : ℕ → ℤ) : ℕ → ℤ → List ℕ
  | 0, _ => []
  | fuel + 1, v => if 0 ≤ v then v.toNat :: chainL next fuel (next v.toNat) else []

/-- Attraction / repulsion force curve (`sim.wgsl` lines 57-66). -/
def forceCurve (dist beta coeff : ℚ) : ℚ :=
  if dist < beta then
    dist / beta - 1
  else if dist < 1 then
    coeff * (1 - |2 * dist - 1 - beta| / (1 - beta))
  else
    0

/-- Shortest-path wrap of a displacement vector for the toroidal world
(`sim.wgsl` lines 107-113): each axis's two corrections are applied in
sequence to the running value, exactly as the shader's `if` statements do. -/
def wrapDiff (half : ℚ) (d : ℚ × ℚ) : ℚ × ℚ :=
  let x1 := if d.1 > half then d.1 - half * 2 else d.1
  let x2 := if x1 < -half then x1 + half * 2 else x1
  let y1 := if d.2 > half then d.2 - half * 2 else d.2
  let y2 := if y1 < -half then y1 + half * 2 else y1
  (x2, y2)

/-- `dot(diff, diff)` (`sim.wgsl` line 115). -/
def sqDist (d : ℚ × ℚ) : ℚ := d.1 * d.1 + d.2 * d.2

/-- The displacement from particle `idx` (at `pos`) to neighbour `j`, after
the toroidal wrap correction when `sim.border == 1` (`sim.wgsl` lines 104-113). -/
def effDiff (s : SimQ) (particles : List ParticleQ) (pos : ℚ × ℚ) (j : ℕ) : ℚ × ℚ :=
  let q := particles.getD j default
  let diff := (q.pos.1 - pos.1, q.pos.2 - pos.2)
  if s.border = 1 then wrapDiff s.worldSize diff else diff

/-- The force contribution of an in-range neighbour `j` (`sim.wgsl` lines
117-131): unit direction times (force curve value + close-range avoidance).
`sqrtQ` abstracts the shader's `sqrt`. -/
def pairTerm (s : SimQ) (matrixA : List ℚ) (colour : List ℕ) (sqrtQ : ℚ → ℚ)
    (myColour : ℕ) (j : ℕ) (diff : ℚ × ℚ) : ℚ × ℚ :=
  let distSq := sqDist diff
  let dist := sqrtQ distSq
  let normD := dist / s.r
  let dir := (diff.1 / dist, diff.2 / dist)
  let theirColour := colour.getD j 0
  let coeff := matrixA.getD (myColour * s.colours + theirColour) 0
  let f := forceCurve normD s.beta coeff
  let avoidF := if dist < s.avoidance then -(s.avoidance / dist - 1) * (1 / 2) else 0
  (dir.1 * (f + avoidF), dir.2 * (f + avoidF))

/-- One iteration of the Force Integrator's pairwise loop body
(`sim.wgsl` lines 102-133): skip self, apply the wrap correction, and
accumulate the pair term only when `0 < distSq < r*r`. -/
def stepNeighbour (s : SimQ) (matrixA : List ℚ) (colour : List ℕ)
    (particles : List ParticleQ) (sqrtQ : ℚ → ℚ) (myColour idx : ℕ)
    (pos : ℚ × ℚ) (acc : ℚ × ℚ) (j : ℕ) : ℚ × ℚ :=
  if j = idx then acc
  else
    let diff := effDiff s particles pos j
    if 0 < sqDist diff ∧ sqDist diff < s.r * s.r then
      let t := pairTerm s matrixA colour sqrtQ myColour j diff
      (acc.1 + t.1, acc.2 + t.2)
    else acc

/-- The 3×3 neighbourhood traversal (`sim.wgsl` lines 91-137): `dy` outer,
`dx` inner; out-of-range cells skipped; each in-range cell's chain walked
with the loop body above. -/
def accLoop (s : SimQ) (matrixA : List ℚ) (colour : List ℕ)
    (particles : List ParticleQ) (G : Grid) (sqrtQ : ℚ → ℚ)
    (myColour idx : ℕ) (pos : ℚ × ℚ) : ℚ × ℚ :=
  let dim : ℤ := (gridDim s : ℤ)
  let cx := cellCoordZ pos.1 s
  let cy := cellCoordZ pos.2 s
  let offsets : List (ℤ × ℤ) :=
    [(-1, -1), (0, -1), (1, -1), (-1, 0), (0, 0), (1, 0), (-1, 1), (0, 1), (1, 1)]
  offsets.foldl
    (fun acc d =>
      let nx := cx + d.1
      let ny := cy + d.2
      if nx < 0 ∨ ny < 0 ∨ nx ≥ dim ∨ ny ≥ dim then acc
      else
        (chainL G.next particles.length (G.heads (cellIndexZ nx ny dim).toNat)).foldl
          (stepNeighbour s matrixA colour particles sqrtQ myColour idx pos) acc)
    (0, 0)

/-- Scaling, optional vortex force, and Euler integration
(`sim.wgsl` lines 139-149): `acc *= force * r`; if the vortex flag is set,
`acc += (-vel.y, vel.x) * 0.01`; `vel = vel * (1 - friction) + acc * delta`;
`pos = pos + vel * delta`. Returns (position, velocity) before border
handling. -/
def scaleVortexIntegrate (s : SimQ) (pos vel acc : ℚ × ℚ) : (ℚ × ℚ) × (ℚ × ℚ) :=
  let a1 := (acc.1 * (s.force * s.r), acc.2 * (s.force * s.r))
  let a2 := if s.vortex = 1
    then (a1.1 + -vel.2 * (1 / 100), a1.2 + vel.1 * (1 / 100))
    else a1
  let v := (vel.1 * (1 - s.friction) + a2.1 * s.delta,
            vel.2 * (1 - s.friction) + a2.2 * s.delta)
  let p := (pos.1 + v.1 * s.delta, pos.2 + v.2 * s.delta)
  (p, v)

/-- Border handling (`sim.wgsl` lines 151-165): toroidal wrap when
`sim.border == 1`, otherwise reflect (clamp to the wall and replace the
velocity component by the inward-pointing magnitude). The four `if`
statements of each mode are applied in sequence, as in the shader. -/
def borderStep (s : SimQ) (pos vel : ℚ × ℚ) : (ℚ × ℚ) × (ℚ × ℚ) :=
  let half := s.worldSize
  if s.border = 1 then
    let x1 := if pos.1 > half then pos.1 - half * 2 else pos.1
    let x2 := if x1 < -half then x1 + half * 2 else x1
    let y1 := if pos.2 > half then pos.2 - half * 2 else pos.2
    let y2 := if y1 < -half then y1 + half * 2 else y1
    ((x2, y2), vel)
  else
    let px1 := if pos.1 > half then half else pos.1
    let vx1 := if pos.1 > half then -|vel.1| else vel.1
    let px2 := if px1 < -half then -half else px1
    let vx2 := if px1 < -half then |vx1| else vx1
    let py1 := if pos.2 > half then half else pos.2
    let vy1 := if pos.2 > half then -|vel.2| else vel.2
    let py2 := if py1 < -half then -half else py1
    let vy2 := if py1 < -half then |vy1| else vy1
    ((px2, py2), (vx2, vy2))

/-- The whole per-particle Force Integrator kernel (`sim.wgsl` lines 68-168)
for particle `idx`, reading the given input buffer and grid. -/
def simKernel (s : SimQ) (matrixA : List ℚ) (colour : List ℕ)
    (particles : List ParticleQ) (G : Grid) (sqrtQ : ℚ → ℚ) (idx : ℕ) : ParticleQ :=
  let p := particles.getD idx default
  let myColour := colour.getD idx 0
  let acc := accLoop s matrixA colour particles G sqrtQ myColour idx p.pos
  let pv := scaleVortexIntegrate s p.pos p.vel acc
  let pv2 := borderStep s pv.1 pv.2
  ⟨pv2.1, pv2.2⟩

/-- The Force Integrator dispatch (`main.ts` tick step 3): builds the grid
from the input buffer (tick steps 1-2) and maps the kernel over every
particle index, producing the contents of the output buffer. -/
def simDispatch (s : SimQ) (matrixA : List ℚ) (colour : List ℕ)
    (sqrtQ : ℚ → ℚ) (order : List ℕ) (input : List ParticleQ) : List ParticleQ :=
  let G := buildGrid (cellOfParticle s input) order
  (List.range input.length).map (simKernel s matrixA colour input G sqrtQ)

/-- The engine's double-buffered state (`main.ts` `LinkedListEngine`):
the two ping-pong particle buffers and the current step index. -/
structure EngineStateQ where
  buf0 : List ParticleQ
  buf1 : List ParticleQ
  step : ℕ

/-- `LinkedListEngine.tick` (`main.ts` lines 148-180): at step `s` the sim
pass reads `particleBuffers[s]` and writes `particleBuffers[1-s]`
(bind groups built on lines 139-142), then the ping-pong index flips. -/
def tick (s : SimQ) (matrixA : List ℚ) (colour : List ℕ) (sqrtQ : ℚ → ℚ)
    (order : List ℕ) (st : EngineStateQ) : EngineStateQ :=
  if st.step = 0 then
    ⟨st.buf0, simDispatch s matrixA colour sqrtQ order st.buf0, 1 - st.step⟩
  else
    ⟨simDispatch s matrixA colour sqrtQ order st.buf1, st.buf1, 1 - st.step⟩

/-- `LinkedListEngine.currentBufferIndex` (`main.ts` lines 182-187):
returns `1 - this.step`. -/
def currentBufferIndex (st : EngineStateQ) : ℕ := 1 - st.step

/-- C3: for every beta strictly between 0 and 1 and every coefficient in
[-1, 1], the force curve satisfies forceCurve(0, beta, coeff) = -1,
forceCurve(beta, beta, coeff) = 0, forceCurve(1, beta, coeff) = 0, and
forceCurve((1+beta)/2, beta, coeff) = coeff. -/
theorem forceCurve_boundary_values (beta coeff : ℚ)
    (hb0 : 0 < beta) (hb1 : beta < 1) (hc0 : -1 ≤ coeff) (hc1 : coeff ≤ 1) :
    forceCurve 0 beta coeff = -1 ∧
    forceCurve beta beta coeff = 0 ∧
    forceCurve 1 beta coeff = 0 ∧
    forceCurve ((1 + beta) / 2) beta coeff = coeff := by
  refine ⟨?_, ?_, ?_, ?_⟩
  · rw [forceCurve, if_pos hb0]
    rw [zero_div]
    ring
  · rw [forceCurve, if_neg (lt_irrefl beta), if_pos hb1]
    have h1 : |2 * beta - 1 - beta| = 1 - beta := by
      rw [abs_of_nonpos (by linarith)]
      ring
    rw [h1, div_self (by linarith)]
    ring
  · rw [forceCurve, if_neg (by linarith), if_neg (lt_irrefl 1)]
  · have hlt1 : (1 + beta) / 2 < 1 := by linarith
    have hge : ¬((1 + beta) / 2 < beta) := by
      intro h
      linarith
    rw [forceCurve, if_neg hge, if_pos hlt1]
    have h2 : |2 * ((1 + beta) / 2) - 1 - beta| = 0 := by
      have : 2 * ((1 + beta) / 2) - 1 - beta = 0 := by ring
      rw [this, abs_zero]
    rw [h2, zero_div]
    ring

/-- A chain starting at a negative head value is empty. -/
theorem chainL_of_neg (next : ℕ → ℤ) (fuel : ℕ) (v : ℤ) (hv : v < 0) :
    chainL next fuel v = [] := by
  cases fuel with
  | zero => rfl
  | succ f => simp only [chainL, if_neg (not_le.mpr hv)]

/-- A chain depends only on the `next` values of the indices it visits. -/
theorem chainL_congr : ∀ (fuel : ℕ) (v : ℤ) (nx ny : ℕ → ℤ),
    (∀ x ∈ chainL nx fuel v, ny x = nx x) → chainL ny fuel v = chainL nx fuel v := by
  intro fuel
  induction fuel with
  | zero => intro v nx ny _; rfl
  | succ f ih =>
    intro v nx ny h
    by_cases hv : 0 ≤ v
    · have hx : v.toNat ∈ chainL nx (f + 1) v := by
        simp only [chainL, if_pos hv]
        exact List.mem_cons_self _ _
      have hn : ny v.toNat = nx v.toNat := h _ hx
      simp only [chainL, if_pos hv, hn]
      congr 1
      apply ih
      intro x hxm
      apply h
      simp only [chainL, if_pos hv]
      exact List.mem_cons_of_mem _ hxm
    · simp only [chainL, if_neg hv]

/-- After the Grid Builder inserts the particles of `l` (in that serialization
order, `l` without duplicates), the chain of any cell `c` is exactly the
reverse of the sublist of `l` assigned to `c`, for any sufficient fuel. -/
theorem buildGrid_chain (cellOf : ℕ → ℕ) :
    ∀ (l : List ℕ), l.Nodup → ∀ (c fuel : ℕ),
      (l.filter (fun i => cellOf i = c)).length ≤ fuel →
      chainL (buildGrid cellOf l).next fuel ((buildGrid cellOf l).heads c)
        = (l.filter (fun i => cellOf i = c)).reverse := by
  intro l
  induction l using List.reverseRecOn with
  | nil =>
    intro _ c fuel _
    simp only [buildGrid, List.foldl_nil, initGrid]
    rw [chainL_of_neg _ _ _ (by norm_num)]
    rfl
  | append_singleton l a ih =>
    intro hnd c fuel hfuel
    have hndl : l.Nodup := (List.nodup_append.mp hnd).1
    have hal : a ∉ l := List.disjoint_singleton.mp (List.nodup_append.mp hnd).2.2
    have hb : buildGrid cellOf (l ++ [a]) = insertP cellOf (buildGrid cellOf l) a := by
      simp [buildGrid, List.foldl_append]
    by_cases hc : cellOf a = c
    · have hfl : (l ++ [a]).filter (fun i => cellOf i = c)
          = l.filter (fun i => cellOf i = c) ++ [a] := by
        simp [List.filter_append, hc]
      rw [hfl] at hfuel ⊢
      obtain ⟨f, rfl⟩ : ∃ f, fuel = f + 1 := by
        cases fuel with
        | zero => simp at hfuel
        | succ f => exact ⟨f, rfl⟩
      have hlenf : (l.filter (fun i => cellOf i = c)).length ≤ f := by
        simpa using hfuel
      have hchain : chainL (buildGrid cellOf l).next f ((buildGrid cellOf l).heads c)
          = (l.filter (fun i => cellOf i = c)).reverse := ih hndl c f hlenf
      have hheads : (buildGrid cellOf (l ++ [a])).heads c = Int.ofNat a := by
        rw [hb]
        simp only [insertP, hc]
        exact Function.update_same _ _ _
      have hnexta : (buildGrid cellOf (l ++ [a])).next a
          = (buildGrid cellOf l).heads c := by
        rw [hb]
        simp only [insertP, hc]
        exact Function.update_same _ _ _
      have hcongr : chainL (buildGrid cellOf (l ++ [a])).next f
          ((buildGrid cellOf l).heads c)
          = chainL (buildGrid cellOf l).next f ((buildGrid cellOf l).heads c) := by
        apply chainL_congr
        intro x hx
        rw [hchain] at hx
        have hxl : x ∈ l := (List.mem_filter.mp (List.mem_reverse.mp hx)).1
        have hxa : x ≠ a := fun he => hal (he ▸ hxl)
        rw [hb]
        simp only [insertP]
        exact Function.update_noteq hxa _ _
      rw [hheads]
      have h0 : (0 : ℤ) ≤ Int.ofNat a := Int.natCast_nonneg a
      have ht : (Int.ofNat a).toNat = a := rfl
      simp only [chainL, if_pos h0, ht]
      rw [hnexta, hcongr, hchain]
      simp
    · have hfl : (l ++ [a]).filter (fun i => cellOf i = c)
          = l.filter (fun i => cellOf i = c) := by
        simp [List.filter_append, hc]
      rw [hfl] at hfuel ⊢
      have hheads : (buildGrid cellOf (l ++ [a])).heads c
          = (buildGrid cellOf l).heads c := by
        rw [hb]
        simp only [insertP]
        exact Function.update_noteq (fun he => hc he.symm) _ _
      have hchain : chainL (buildGrid cellOf l).next fuel ((buildGrid cellOf l).heads c)
          = (l.filter (fun i => cellOf i = c)).reverse := ih hndl c fuel hfuel
      rw [hheads]
      rw [show chainL (buildGrid cellOf (l ++ [a])).next fuel ((buildGrid cellOf l).heads c)
          = chainL (buildGrid cellOf l).next fuel ((buildGrid cellOf l).heads c) from ?_, hchain]
      apply chainL_congr
      intro x hx
      rw [hchain] at hx
      have hxl : x ∈ l := (List.mem_filter.mp (List.mem_reverse.mp hx)).1
      have hxa : x ≠ a := fun he => hal (he ▸ hxl)
      rw [hb]
      simp only [insertP]
      exact Function.update_noteq hxa _ _

/-- C2: for every particle array, parameter record with positive radius and
world half-size, and serialization order of the atomic head exchanges, the
Grid Builder's cell chains (followed from each head to the sentinel) contain
each particle index 0..N-1 exactly once, in the chain of its own cell, and
contain nothing else. -/
theorem grid_builder_completeness (s : SimQ) (particles : List ParticleQ)
    (hr : 0 < s.r) (hw : 0 < s.worldSize)
    (order : List ℕ) (hperm : order.Perm (List.range particles.length)) :
    (∀ c : ℕ,
      (chainL (buildGrid (cellOfParticle s particles) order).next particles.length
        ((buildGrid (cellOfParticle s particles) order).heads c)).Nodup) ∧
    (∀ i c : ℕ,
      i ∈ chainL (buildGrid (cellOfParticle s particles) order).next particles.length
        ((buildGrid (cellOfParticle s particles) order).heads c)
      ↔ (i < particles.length ∧ cellOfParticle s particles i = c)) := by
  have hnd : order.Nodup := hperm.nodup_iff.mpr (List.nodup_range _)
  have hlen : order.length = particles.length := by simpa using hperm.length_eq
  have hmemo : ∀ i, i ∈ order ↔ i < particles.length := fun i => by
    rw [hperm.mem_iff, List.mem_range]
  have key : ∀ c, chainL (buildGrid (cellOfParticle s particles) order).next
      particles.length ((buildGrid (cellOfParticle s particles) order).heads c)
      = (order.filter (fun i => cellOfParticle s particles i = c)).reverse := by
    intro c
    exact buildGrid_chain _ order hnd c particles.length
      (le_trans (List.length_filter_le _ _) (le_of_eq hlen))
  constructor
  · intro c
    rw [key c]
    exact List.nodup_reverse.mpr (hnd.filter _)
  · intro i c
    rw [key c, List.mem_reverse, List.mem_filter]
    rw [hmemo i]
    simp

/-- Witness for C2: two particles, radius 1, world half-size 1, insertion
order [1, 0]. -/
theorem grid_builder_completeness_witness :
    (0 : ℚ) < 1 ∧ (0 : ℚ) < 1 ∧
    ([1, 0] : List ℕ).Perm (List.range
      ([⟨(0, 0), (0, 0)⟩, ⟨(1/2, 0), (0, 0)⟩] : List ParticleQ).length) ∧
    ((∀ c : ℕ,
      (chainL (buildGrid (cellOfParticle ⟨2, 1, 1, 0, 1/2, 1, 0, 1, 1, 0⟩
          [⟨(0, 0), (0, 0)⟩, ⟨(1/2, 0), (0, 0)⟩]) [1, 0]).next 2
        ((buildGrid (cellOfParticle ⟨2, 1, 1, 0, 1/2, 1, 0, 1, 1, 0⟩
          [⟨(0, 0), (0, 0)⟩, ⟨(1/2, 0), (0, 0)⟩]) [1, 0]).heads c)).Nodup) ∧
    (∀ i c : ℕ,
      i ∈ chainL (buildGrid (cellOfParticle ⟨2, 1, 1, 0, 1/2, 1, 0, 1, 1, 0⟩
          [⟨(0, 0), (0, 0)⟩, ⟨(1/2, 0), (0, 0)⟩]) [1, 0]).next 2
        ((buildGrid (cellOfParticle ⟨2, 1, 1, 0, 1/2, 1, 0, 1, 1, 0⟩
          [⟨(0, 0), (0, 0)⟩, ⟨(1/2, 0), (0, 0)⟩]) [1, 0]).heads c)
      ↔ (i < 2 ∧ cellOfParticle ⟨2, 1, 1, 0, 1/2, 1, 0, 1, 1, 0⟩
          [⟨(0, 0), (0, 0)⟩, ⟨(1/2, 0), (0, 0)⟩] i = c))) :=
  ⟨by norm_num, by norm_num, by decide,
    grid_builder_completeness ⟨2, 1, 1, 0, 1/2, 1, 0, 1, 1, 0⟩
      [⟨(0, 0), (0, 0)⟩, ⟨(1/2, 0), (0, 0)⟩] (by norm_num) (by norm_num)
      [1, 0] (by decide)⟩

/-- C9: for every coordinate and every parameter record with positive radius
and positive world half-size, the clamped coordinate lies inside the
world-space bounds `[cx*r - half, (cx+1)*r - half)` of the cell coordinate
`cx` that the Grid Builder's cellCoord assigns. -/
theorem cellCoord_locality (s : SimQ) (v : ℚ) (hr : 0 < s.r) (hw : 0 < s.worldSize) :
    (cellCoordN v s : ℚ) * s.r - s.worldSize ≤ clampQ v (-s.worldSize) s.worldSize ∧
    clampQ v (-s.worldSize) s.worldSize < ((cellCoordN v s : ℚ) + 1) * s.r - s.worldSize := by
  set w := clampQ v (-s.worldSize) s.worldSize with hwdef
  have hwlo : -s.worldSize ≤ w := le_min (le_max_right _ _) (by linarith)
  have hq0 : 0 ≤ (w + s.worldSize) / s.r := div_nonneg (by linarith) hr.le
  have hfl : 0 ≤ ⌊(w + s.worldSize) / s.r⌋ := Int.floor_nonneg.mpr hq0
  have hcast : (cellCoordN v s : ℚ) = ((⌊(w + s.worldSize) / s.r⌋ : ℤ) : ℚ) := by
    rw [cellCoordN, ← hwdef]
    exact_mod_cast congrArg (fun z : ℤ => (z : ℚ)) (Int.toNat_of_nonneg hfl)
  constructor
  · have h1 : ((⌊(w + s.worldSize) / s.r⌋ : ℤ) : ℚ) ≤ (w + s.worldSize) / s.r :=
      Int.floor_le _
    have h2 : ((⌊(w + s.worldSize) / s.r⌋ : ℤ) : ℚ) * s.r ≤ w + s.worldSize :=
      (le_div_iff₀ hr).mp h1
    rw [hcast]
    linarith
  · have h1 : (w + s.worldSize) / s.r < ((⌊(w + s.worldSize) / s.r⌋ : ℤ) : ℚ) + 1 :=
      Int.lt_floor_add_one _
    have h2 : w + s.worldSize < (((⌊(w + s.worldSize) / s.r⌋ : ℤ) : ℚ) + 1) * s.r :=
      (div_lt_iff₀ hr).mp h1
    rw [hcast]
    linarith

/-- Witness for C9 at v = 3/2, r = 1, world half-size = 1. -/
theorem cellCoord_locality_witness :
    (0 : ℚ) < 1 ∧ (0 : ℚ) < 1 ∧
    ((cellCoordN (3/2) ⟨2, 1, 1, 0, 1/2, 1, 0, 1, 1, 0⟩ : ℚ) * 1 - 1
        ≤ clampQ (3/2) (-1) 1 ∧
      clampQ (3/2) (-1) 1
        < ((cellCoordN (3/2) ⟨2, 1, 1, 0, 1/2, 1, 0, 1, 1, 0⟩ : ℚ) + 1) * 1 - 1) :=
  ⟨by norm_num, by norm_num,
    cellCoord_locality ⟨2, 1, 1, 0, 1/2, 1, 0, 1, 1, 0⟩ (3/2) (by norm_num) (by norm_num)⟩

/-- Any clamped coordinate's cell coordinate is at most `gridDim - 1`. -/
theorem cellCoordN_le (s : SimQ) (v : ℚ) (hr : 0 < s.r) (hw : 0 < s.worldSize) :
    cellCoordN v s ≤ (⌈s.worldSize * 2 / s.r⌉).toNat := by
  have hwhi : clampQ v (-s.worldSize) s.worldSize ≤ s.worldSize := min_le_right _ _
  have hq : (clampQ v (-s.worldSize) s.worldSize + s.worldSize) / s.r
      ≤ s.worldSize * 2 / s.r := by
    exact (div_le_div_right hr).mpr (by linarith)
  have hfloor : ⌊(clampQ v (-s.worldSize) s.worldSize + s.worldSize) / s.r⌋
      ≤ ⌈s.worldSize * 2 / s.r⌉ :=
    le_trans (Int.floor_le_floor hq) (Int.floor_le_ceil _)
  exact Int.toNat_le_toNat hfloor

/-- C10: the flat cell index computed by the Grid Builder is always strictly
below gridDim², so the head-table access stays in bounds; in particular a
coordinate clamped to exactly +worldHalfSize maps to a cell coordinate at
most gridDim - 1. -/
theorem cellIndex_in_bounds (s : SimQ) (hr : 0 < s.r) (hw : 0 < s.worldSize) :
    (∀ v : ℚ, cellCoordN v s ≤ gridDim s - 1) ∧
    (∀ v w : ℚ,
      cellIndexN (cellCoordN v s) (cellCoordN w s) (gridDim s) < gridDim s * gridDim s) ∧
    cellCoordN s.worldSize s ≤ gridDim s - 1 := by
  have hb : ∀ v : ℚ, cellCoordN v s ≤ gridDim s - 1 := by
    intro v
    have := cellCoordN_le s v hr hw
    simp only [gridDim]
    omega
  refine ⟨hb, ?_, hb s.worldSize⟩
  intro v w
  have hcx := hb v
  have hcy := hb w
  have hdim : 1 ≤ gridDim s := by simp only [gridDim]; omega
  rw [cellIndexN]
  calc cellCoordN w s * gridDim s + cellCoordN v s
      < cellCoordN w s * gridDim s + gridDim s := by omega
    _ = (cellCoordN w s + 1) * gridDim s := by ring
    _ ≤ gridDim s * gridDim s := Nat.mul_le_mul_right _ (by omega)

/-- Witness for C10 at r = 1, world half-size = 1. -/
theorem cellIndex_in_bounds_witness :
    (0 : ℚ) < 1 ∧ (0 : ℚ) < 1 ∧
    ((∀ v : ℚ, cellCoordN v ⟨2, 1, 1, 0, 1/2, 1, 0, 1, 1, 0⟩
        ≤ gridDim ⟨2, 1, 1, 0, 1/2, 1, 0, 1, 1, 0⟩ - 1) ∧
      (∀ v w : ℚ,
        cellIndexN (cellCoordN v ⟨2, 1, 1, 0, 1/2, 1, 0, 1, 1, 0⟩)
          (cellCoordN w ⟨2, 1, 1, 0, 1/2, 1, 0, 1, 1, 0⟩)
          (gridDim ⟨2, 1, 1, 0, 1/2, 1, 0, 1, 1, 0⟩)
        < gridDim ⟨2, 1, 1, 0, 1/2, 1, 0, 1, 1, 0⟩
            * gridDim ⟨2, 1, 1, 0, 1/2, 1, 0, 1, 1, 0⟩) ∧
      cellCoordN 1 ⟨2, 1, 1, 0, 1/2, 1, 0, 1, 1, 0⟩
        ≤ gridDim ⟨2, 1, 1, 0, 1/2, 1, 0, 1, 1, 0⟩ - 1) :=
  ⟨by norm_num, by norm_num,
    cellIndex_in_bounds ⟨2, 1, 1, 0, 1/2, 1, 0, 1, 1, 0⟩ (by norm_num) (by norm_num)⟩

/-- Witness for C3 at beta = 1/2, coeff = 1/2. -/
theorem forceCurve_boundary_values_witness :
    (0 : ℚ) < 1/2 ∧ (1/2 : ℚ) < 1 ∧ (-1 : ℚ) ≤ 1/2 ∧ (1/2 : ℚ) ≤ 1 ∧
    (forceCurve 0 (1/2) (1/2) = -1 ∧
     forceCurve (1/2) (1/2) (1/2) = 0 ∧
     forceCurve 1 (1/2) (1/2) = 0 ∧
     forceCurve ((1 + 1/2) / 2) (1/2) (1/2) = 1/2) :=
  ⟨by norm_num, by norm_num, by norm_num, by norm_num,
    forceCurve_boundary_values (1/2) (1/2) (by norm_num) (by norm_num)
      (by norm_num) (by norm_num)⟩

/-- C4: in the Force Integrator's pairwise loop, a neighbour j ≠ idx leaves
the accumulator unchanged when the wrap-corrected squared displacement is 0
or at least r², and adds exactly the pair term when it is strictly between
0 and r². -/
theorem pairwise_cutoff (s : SimQ) (matrixA : List ℚ) (colour : List ℕ)
    (particles : List ParticleQ) (sqrtQ : ℚ → ℚ) (myColour idx : ℕ)
    (pos acc : ℚ × ℚ) (j : ℕ) (hj : j ≠ idx) :
    (sqDist (effDiff s particles pos j) = 0 →
      stepNeighbour s matrixA colour particles sqrtQ myColour idx pos acc j = acc) ∧
    (s.r * s.r ≤ sqDist (effDiff s particles pos j) →
      stepNeighbour s matrixA colour particles sqrtQ myColour idx pos acc j = acc) ∧
    (0 < sqDist (effDiff s particles pos j) →
      sqDist (effDiff s particles pos j) < s.r * s.r →
      stepNeighbour s matrixA colour particles sqrtQ myColour idx pos acc j =
        (acc.1 + (pairTerm s matrixA colour sqrtQ myColour j (effDiff s particles pos j)).1,
         acc.2 + (pairTerm s matrixA colour sqrtQ myColour j (effDiff s particles pos j)).2)) := by
  refine ⟨?_, ?_, ?_⟩
  · intro h
    simp only [stepNeighbour, if_neg hj]
    rw [if_neg]
    rintro ⟨h1, -⟩
    rw [h] at h1
    exact lt_irrefl 0 h1
  · intro h
    simp only [stepNeighbour, if_neg hj]
    rw [if_neg]
    rintro ⟨-, h2⟩
    exact absurd h (not_le.mpr h2)
  · intro h1 h2
    simp only [stepNeighbour, if_neg hj]
    rw [if_pos ⟨h1, h2⟩]

/-- Witness for C4: two coincident particles (zero distance), neighbour 1 of
particle 0: the accumulator (1, 2) is unchanged. -/
theorem pairwise_cutoff_witness :
    (1 ≠ 0) ∧
    sqDist (effDiff ⟨1, 1, 1, 0, 1/2, 1, 0, 1, 0, 0⟩
      [⟨(0, 0), (0, 0)⟩, ⟨(0, 0), (0, 0)⟩] (0, 0) 1) = 0 ∧
    stepNeighbour ⟨1, 1, 1, 0, 1/2, 1, 0, 1, 0, 0⟩ [1] [0, 0]
      [⟨(0, 0), (0, 0)⟩, ⟨(0, 0), (0, 0)⟩] (fun _ => 0) 0 0 (0, 0) (1, 2) 1 = (1, 2) :=
  ⟨by decide, by norm_num [sqDist, effDiff],
    (pairwise_cutoff ⟨1, 1, 1, 0, 1/2, 1, 0, 1, 0, 0⟩ [1] [0, 0]
      [⟨(0, 0), (0, 0)⟩, ⟨(0, 0), (0, 0)⟩] (fun _ => 0) 0 0 (0, 0) (1, 2) 1
      (by decide)).1 (by norm_num [sqDist, effDiff])⟩

/-- With zero velocity and zero accumulated force the integration step leaves
the position unchanged and the velocity zero. -/
theorem scaleVortexIntegrate_zero (s : SimQ) (pos : ℚ × ℚ) :
    scaleVortexIntegrate s pos (0, 0) (0, 0) = (pos, (0, 0)) := by
  by_cases hv : s.vortex = 1 <;>
    simp [scaleVortexIntegrate, hv, Prod.ext_iff]

/-- C5 counterexample: under toroidal wrap with world half-size 1, a particle
at x = +1 with zero velocity and zero force ends boundary handling at exactly
x = 1, which is not in the half-open interval [-1, 1). -/
theorem wrap_half_open_counterexample :
    (borderStep ⟨1, 1, 1, 0, 1/2, 1, 0, 1, 1, 0⟩
        (scaleVortexIntegrate ⟨1, 1, 1, 0, 1/2, 1, 0, 1, 1, 0⟩ (1, 0) (0, 0) (0, 0)).1
        (scaleVortexIntegrate ⟨1, 1, 1, 0, 1/2, 1, 0, 1, 1, 0⟩ (1, 0) (0, 0) (0, 0)).2).1.1
      = 1 ∧
    ¬((borderStep ⟨1, 1, 1, 0, 1/2, 1, 0, 1, 1, 0⟩
        (scaleVortexIntegrate ⟨1, 1, 1, 0, 1/2, 1, 0, 1, 1, 0⟩ (1, 0) (0, 0) (0, 0)).1
        (scaleVortexIntegrate ⟨1, 1, 1, 0, 1/2, 1, 0, 1, 1, 0⟩ (1, 0) (0, 0) (0, 0)).2).1.1
      < 1) := by
  rw [scaleVortexIntegrate_zero]
  norm_num [borderStep]

/-- C5 (amended): under toroidal wrap, a particle at exactly +worldHalfSize
on the x axis with zero velocity and zero accumulated force lies, after
integration and boundary handling, within the closed interval
[-worldHalfSize, worldHalfSize]. -/
theorem wrap_at_half_stays_in_closed_world (s : SimQ) (pos : ℚ × ℚ)
    (hb : s.border = 1) (hw : 0 < s.worldSize) (hx : pos.1 = s.worldSize) :
    -s.worldSize
      ≤ (borderStep s (scaleVortexIntegrate s pos (0, 0) (0, 0)).1
          (scaleVortexIntegrate s pos (0, 0) (0, 0)).2).1.1 ∧
    (borderStep s (scaleVortexIntegrate s pos (0, 0) (0, 0)).1
          (scaleVortexIntegrate s pos (0, 0) (0, 0)).2).1.1
      ≤ s.worldSize := by
  rw [scaleVortexIntegrate_zero]
  have h1 : ¬(pos.1 > s.worldSize) := by rw [hx]; exact lt_irrefl _
  have h2 : ¬(pos.1 < -s.worldSize) := by rw [hx]; linarith
  simp only [borderStep, if_pos hb, if_neg h1, if_neg h2]
  constructor <;> [linarith [hx]; rw [hx]]

/-- Witness for C5 (amended) at world half-size 1, position (1, 0). -/
theorem wrap_at_half_stays_in_closed_world_witness :
    ((⟨1, 1, 1, 0, 1/2, 1, 0, 1, 1, 0⟩ : SimQ).border = 1) ∧ ((0 : ℚ) < 1) ∧
    (((1 : ℚ), (0 : ℚ)).1 = (1 : ℚ)) ∧
    (-(1 : ℚ)
      ≤ (borderStep ⟨1, 1, 1, 0, 1/2, 1, 0, 1, 1, 0⟩
          (scaleVortexIntegrate ⟨1, 1, 1, 0, 1/2, 1, 0, 1, 1, 0⟩ (1, 0) (0, 0) (0, 0)).1
          (scaleVortexIntegrate ⟨1, 1, 1, 0, 1/2, 1, 0, 1, 1, 0⟩ (1, 0) (0, 0) (0, 0)).2).1.1 ∧
      (borderStep ⟨1, 1, 1, 0, 1/2, 1, 0, 1, 1, 0⟩
          (scaleVortexIntegrate ⟨1, 1, 1, 0, 1/2, 1, 0, 1, 1, 0⟩ (1, 0) (0, 0) (0, 0)).1
          (scaleVortexIntegrate ⟨1, 1, 1, 0, 1/2, 1, 0, 1, 1, 0⟩ (1, 0) (0, 0) (0, 0)).2).1.1
        ≤ (1 : ℚ)) :=
  ⟨rfl, by norm_num, rfl,
    wrap_at_half_stays_in_closed_world ⟨1, 1, 1, 0, 1/2, 1, 0, 1, 1, 0⟩ (1, 0)
      rfl (by norm_num) rfl⟩

/-- C6: under reflective mode, a particle beyond a wall moving outward has its
position clamped to that wall and the corresponding velocity component
replaced by the negation of its magnitude (pointing back inside), on both
walls of both axes. -/
theorem reflect_sign_correction (s : SimQ) (pos vel : ℚ × ℚ)
    (hb : s.border = 0) (hw : 0 < s.worldSize) :
    (s.worldSize < pos.1 → 0 < vel.1 →
      (borderStep s pos vel).1.1 = s.worldSize ∧
      (borderStep s pos vel).2.1 = -vel.1) ∧
    (pos.1 < -s.worldSize → vel.1 < 0 →
      (borderStep s pos vel).1.1 = -s.worldSize ∧
      (borderStep s pos vel).2.1 = -vel.1) ∧
    (s.worldSize < pos.2 → 0 < vel.2 →
      (borderStep s pos vel).1.2 = s.worldSize ∧
      (borderStep s pos vel).2.2 = -vel.2) ∧
    (pos.2 < -s.worldSize → vel.2 < 0 →
      (borderStep s pos vel).1.2 = -s.worldSize ∧
      (borderStep s pos vel).2.2 = -vel.2) := by
  have hb1 : ¬(s.border = 1) := by omega
  refine ⟨?_, ?_, ?_, ?_⟩
  · intro h1 hv
    simp only [borderStep, if_neg hb1, if_pos h1,
      if_neg (show ¬(s.worldSize < -s.worldSize) by linarith)]
    simp [abs_of_pos hv]
  · intro h1 hv
    have hno : ¬(s.worldSize < pos.1) := by linarith
    simp only [borderStep, if_neg hb1, if_neg hno, if_pos h1]
    simp [abs_of_neg hv]
  · intro h1 hv
    simp only [borderStep, if_neg hb1, if_pos h1,
      if_neg (show ¬(s.worldSize < -s.worldSize) by linarith)]
    simp [abs_of_pos hv]
  · intro h1 hv
    have hno : ¬(s.worldSize < pos.2) := by linarith
    simp only [borderStep, if_neg hb1, if_neg hno, if_pos h1]
    simp [abs_of_neg hv]

/-- Witness for C6: world half-size 1, particle at x = 2 with x velocity 3:
clamped to x = 1 with x velocity -3. -/
theorem reflect_sign_correction_witness :
    ((⟨1, 1, 1, 0, 1/2, 1, 0, 1, 0, 0⟩ : SimQ).border = 0) ∧ ((0 : ℚ) < 1) ∧
    ((1 : ℚ) < 2) ∧ ((0 : ℚ) < 3) ∧
    ((borderStep ⟨1, 1, 1, 0, 1/2, 1, 0, 1, 0, 0⟩ (2, 0) (3, 0)).1.1 = 1 ∧
      (borderStep ⟨1, 1, 1, 0, 1/2, 1, 0, 1, 0, 0⟩ (2, 0) (3, 0)).2.1 = -3) :=
  ⟨rfl, by norm_num, by norm_num, by norm_num,
    (reflect_sign_correction ⟨1, 1, 1, 0, 1/2, 1, 0, 1, 0, 0⟩ (2, 0) (3, 0)
      rfl (by norm_num)).1 (by norm_num) (by norm_num)⟩

/-- An element of the mapped index range evaluates to the function at that
index. -/
theorem range_map_getD {α : Type} [Inhabited α] (n i : ℕ) (f : ℕ → α) (h : i < n) :
    ((List.range n).map f).getD i default = f i := by
  rw [List.getD_eq_getElem?_getD]
  simp [List.getElem?_map, List.getElem?_range, h]

/-- C7: the Force Integrator dispatch of a tick writes a freshly computed
record for every particle index into the opposite buffer and leaves the
source buffer exactly as it was. -/
theorem force_integrator_double_buffer (s : SimQ) (matrixA : List ℚ)
    (colour : List ℕ) (sqrtQ : ℚ → ℚ) (order : List ℕ) (st : EngineStateQ) :
    (st.step = 0 →
      (tick s matrixA colour sqrtQ order st).buf0 = st.buf0 ∧
      ((tick s matrixA colour sqrtQ order st).buf1).length = st.buf0.length ∧
      ∀ i, i < st.buf0.length →
        ((tick s matrixA colour sqrtQ order st).buf1).getD i default
          = simKernel s matrixA colour st.buf0
              (buildGrid (cellOfParticle s st.buf0) order) sqrtQ i) ∧
    (st.step = 1 →
      (tick s matrixA colour sqrtQ order st).buf1 = st.buf1 ∧
      ((tick s matrixA colour sqrtQ order st).buf0).length = st.buf1.length ∧
      ∀ i, i < st.buf1.length →
        ((tick s matrixA colour sqrtQ order st).buf0).getD i default
          = simKernel s matrixA colour st.buf1
              (buildGrid (cellOfParticle s st.buf1) order) sqrtQ i) := by
  constructor
  · intro h0
    simp only [tick, if_pos h0, simDispatch]
    refine ⟨by simp, by simp, ?_⟩
    intro i hi
    exact range_map_getD _ _ _ hi
  · intro h1
    have h0 : ¬(st.step = 0) := by omega
    simp only [tick, if_neg h0, simDispatch]
    refine ⟨by simp, by simp, ?_⟩
    intro i hi
    exact range_map_getD _ _ _ hi

/-- Witness for C7 on a one-particle engine at step 0. -/
theorem force_integrator_double_buffer_witness :
    ((⟨[⟨(0, 0), (0, 0)⟩], [⟨(0, 0), (0, 0)⟩], 0⟩ : EngineStateQ).step = 0 →
      (tick ⟨1, 1, 1, 0, 1/2, 1, 0, 1, 0, 0⟩ [1] [0] (fun _ => 0) [0]
          ⟨[⟨(0, 0), (0, 0)⟩], [⟨(0, 0), (0, 0)⟩], 0⟩).buf0
        = [⟨(0, 0), (0, 0)⟩] ∧
      ((tick ⟨1, 1, 1, 0, 1/2, 1, 0, 1, 0, 0⟩ [1] [0] (fun _ => 0) [0]
          ⟨[⟨(0, 0), (0, 0)⟩], [⟨(0, 0), (0, 0)⟩], 0⟩).buf1).length = 1 ∧
      ∀ i, i < 1 →
        ((tick ⟨1, 1, 1, 0, 1/2, 1, 0, 1, 0, 0⟩ [1] [0] (fun _ => 0) [0]
            ⟨[⟨(0, 0), (0, 0)⟩], [⟨(0, 0), (0, 0)⟩], 0⟩).buf1).getD i default
          = simKernel ⟨1, 1, 1, 0, 1/2, 1, 0, 1, 0, 0⟩ [1] [0] [⟨(0, 0), (0, 0)⟩]
              (buildGrid (cellOfParticle ⟨1, 1, 1, 0, 1/2, 1, 0, 1, 0, 0⟩
                [⟨(0, 0), (0, 0)⟩]) [0]) (fun _ => 0) i) :=
  (force_integrator_double_buffer ⟨1, 1, 1, 0, 1/2, 1, 0, 1, 0, 0⟩ [1] [0]
    (fun _ => 0) [0] ⟨[⟨(0, 0), (0, 0)⟩], [⟨(0, 0), (0, 0)⟩], 0⟩).1

/-- C8 counterexample: with the vortex flag set, force multiplier 2, radius 1,
friction 0, delta 1, velocity (0, 1) and zero pair sum, the kernel produces
x velocity -1/100, while scaling (pair sum + vortex term) by
forceMagnitude * radius as the claim states would give -1/50. -/
theorem scale_vortex_order_counterexample :
    (scaleVortexIntegrate ⟨1, 1, 2, 0, 1/2, 1, 0, 1, 0, 1⟩ (0, 0) (0, 1) (0, 0)).2.1
      = -1/100 ∧
    (0 : ℚ) * (1 - 0) + ((0 + -1 * (1/100)) * (2 * 1)) * 1 = -1/50 ∧
    (-1/100 : ℚ) ≠ -1/50 := by
  refine ⟨?_, ?_, ?_⟩ <;> norm_num [scaleVortexIntegrate]

/-- C8 (amended): the Force Integrator scales the accumulated pairwise force
sum by forceMagnitude * interactionRadius, then adds the optional vortex term
(unscaled), and produces exactly velocity' = velocity * (1 - friction) +
F * timeStep and position' = position + velocity' * timeStep, where F is that
scaled-sum-plus-vortex value, before boundary handling. -/
theorem scale_then_vortex_integrate (s : SimQ) (pos vel acc : ℚ × ℚ) :
    scaleVortexIntegrate s pos vel acc =
      ((pos.1 + (vel.1 * (1 - s.friction)
            + (acc.1 * (s.force * s.r)
                + (if s.vortex = 1 then -vel.2 * (1/100) else 0)) * s.delta) * s.delta,
        pos.2 + (vel.2 * (1 - s.friction)
            + (acc.2 * (s.force * s.r)
                + (if s.vortex = 1 then vel.1 * (1/100) else 0)) * s.delta) * s.delta),
       (vel.1 * (1 - s.friction)
          + (acc.1 * (s.force * s.r)
              + (if s.vortex = 1 then -vel.2 * (1/100) else 0)) * s.delta,
        vel.2 * (1 - s.friction)
          + (acc.2 * (s.force * s.r)
              + (if s.vortex = 1 then vel.1 * (1/100) else 0)) * s.delta)) := by
  by_cases hv : s.vortex = 1 <;>
    simp [scaleVortexIntegrate, hv, Prod.ext_iff]

/-- C1: after a tick from step 0 the Force Integrator has written buffer 1
(and left buffer 0 untouched), yet `currentBufferIndex` returns 0 — the
buffer that was read, contradicting the getter's documented meaning. -/
theorem tick_currentBuffer_mismatch (s : SimQ) (matrixA : List ℚ)
    (colour : List ℕ) (sqrtQ : ℚ → ℚ) (order : List ℕ) (st : EngineStateQ)
    (h0 : st.step = 0) :
    currentBufferIndex (tick s matrixA colour sqrtQ order st) = 0 ∧
    (tick s matrixA colour sqrtQ order st).buf1
      = simDispatch s matrixA colour sqrtQ order st.buf0 ∧
    (tick s matrixA colour sqrtQ order st).buf0 = st.buf0 ∧
    currentBufferIndex (tick s matrixA colour sqrtQ order st) ≠ 1 := by
  simp [tick, currentBufferIndex, h0]

/-- Witness for C1 on an empty engine at step 0. -/
theorem tick_currentBuffer_mismatch_witness :
    currentBufferIndex (tick ⟨1, 1, 1, 0, 1/2, 1, 0, 1, 0, 0⟩ [] [] (fun _ => 0) []
        ⟨[], [], 0⟩) = 0 ∧
    (tick ⟨1, 1, 1, 0, 1/2, 1, 0, 1, 0, 0⟩ [] [] (fun _ => 0) [] ⟨[], [], 0⟩).buf1
      = simDispatch ⟨1, 1, 1, 0, 1/2, 1, 0, 1, 0, 0⟩ [] [] (fun _ => 0) [] [] ∧
    (tick ⟨1, 1, 1, 0, 1/2, 1, 0, 1, 0, 0⟩ [] [] (fun _ => 0) [] ⟨[], [], 0⟩).buf0
      = [] ∧
    currentBufferIndex (tick ⟨1, 1, 1, 0, 1/2, 1, 0, 1, 0, 0⟩ [] [] (fun _ => 0) []
        ⟨[], [], 0⟩) ≠ 1 :=
  tick_currentBuffer_mismatch ⟨1, 1, 1, 0, 1/2, 1, 0, 1, 0, 0⟩ [] [] (fun _ => 0) []
    ⟨[], [], 0⟩ rfl

end ParticleLife
